import Mathlib

/-!
Shallow embedding of the crypto tracker repository
(`app.py`, `crypto_service.py`, `google_sheets_service.py`).

Conventions of the embedding:
* Machine floats are modelled by `ℚ`; a pandas `NaN` cell and a pandas
  `NaN` aggregate are modelled by `Option` (`none` = NaN).  The source
  stores `price_std_dev` as the square root of the sample variance; `ℚ`
  has no square root, so the embedding stores the square
  (`price_std_dev_sq`), which is `none` exactly when the source value
  is NaN, and determines the source value uniquely on nonnegatives.
* A Python dict lacking a key is modelled by an `Option` field that is
  `none`.  `pd.DataFrame(data)` builds a column for a key as soon as one
  record carries it, filling `NaN` for the records that lack it; a key
  carried by no record yields no column at all.  Pandas aggregations on
  numeric-or-NaN columns skip NaN; on a column of strings they raise
  `TypeError`, modelled by `Except.error`.
* Wall-clock readings (`pd.Timestamp.now()`) are passed explicitly as a
  `now : ℕ` argument.
* The scheduler loop `background_update` is modelled as a recursion over
  a finite list of per-cycle environment inputs (fetch result, sheet
  write outcome), producing the trace of its observable events.
-/

namespace Crypto

/-- One upstream market record (`crypto_service.py` consumes exactly the
six `required_columns`; the remaining upstream keys never influence the
analysis, so they are omitted).  A field is `none` when the key is
absent from the record dict. -/
structure MarketRecord where
  name : Option String
  symbol : Option String
  current_price : Option ℚ
  market_cap : Option ℚ
  price_change_percentage_24h : Option ℚ
  price_change_percentage_7d : Option ℚ
deriving DecidableEq

/-- A pandas cell: a numeric value, a string, or NaN. -/
inductive Cell
  | num (q : ℚ)
  | str (s : String)
  | nan
deriving DecidableEq

/-- Whether a cell holds a string. -/
def Cell.isStr : Cell → Bool
  | .str _ => true
  | _ => false

/-- The six `required_columns` of `analyze_crypto_data`. -/
inductive Col
  | market_cap
  | current_price
  | pct24h
  | pct7d
  | colName
  | colSymbol
deriving DecidableEq

/-- The cell a record contributes to a column (`none` = key absent). -/
def recCell : Col → MarketRecord → Option Cell
  | .market_cap, r => r.market_cap.map .num
  | .current_price, r => r.current_price.map .num
  | .pct24h, r => r.price_change_percentage_24h.map .num
  | .pct7d, r => r.price_change_percentage_7d.map .num
  | .colName, r => r.name.map .str
  | .colSymbol, r => r.symbol.map .str

/-- Default used by the missing-column fill of `analyze_crypto_data`:
percentage-change columns get `0.0`, `market_cap` gets `0`, every other
column (including `current_price`) gets the string sentinel `N/A`. -/
def defaultCell : Col → Cell
  | .pct24h => .num 0
  | .pct7d => .num 0
  | .market_cap => .num 0
  | _ => .str "N/A"

/-- The DataFrame column for `c`: if at least one record carries the key
the column holds each record's own cell with NaN for absentees
(pandas `pd.DataFrame` semantics); otherwise `analyze_crypto_data`
creates the column filled with `defaultCell c` for every row. -/
def column (c : Col) (data : List MarketRecord) : List Cell :=
  if data.any (fun r => (recCell c r).isSome) then
    data.map (fun r => (recCell c r).getD .nan)
  else
    data.map (fun _ => defaultCell c)

/-- The numeric content of a cell (`none` for NaN and strings). -/
def numOf : Cell → Option ℚ
  | .num q => some q
  | _ => none

/-- Extract the numeric values of a column the way a pandas aggregation
does: NaN cells are skipped, a string cell raises `TypeError`. -/
def cellNums : List Cell → Except String (List ℚ)
  | [] => .ok []
  | .str _ :: _ => .error "TypeError"
  | .num q :: rest => (cellNums rest).map (fun xs => q :: xs)
  | .nan :: rest => cellNums rest

/-- Pandas `mean` over the non-NaN values (NaN, i.e. `none`, if there are
none). -/
def meanOf (xs : List ℚ) : Option ℚ :=
  match xs with
  | [] => none
  | _ => some (xs.sum / (xs.length : ℚ))

/-- Pandas `median`: middle of the sorted non-NaN values, average of the
two middles for even length. -/
def medianOf (xs : List ℚ) : Option ℚ :=
  let s := List.insertionSort (· ≤ ·) xs
  let n := s.length
  if n = 0 then none
  else if n % 2 = 1 then some (s.getD (n / 2) 0)
  else some ((s.getD (n / 2 - 1) 0 + s.getD (n / 2) 0) / 2)

/-- Square of pandas `std` (sample standard deviation, `ddof = 1`): the
sample variance with divisor N−1, NaN (`none`) when fewer than two
non-NaN values are present. -/
def sampleVarOf (xs : List ℚ) : Option ℚ :=
  if 2 ≤ xs.length then
    some (((xs.map (fun x => (x - xs.sum / (xs.length : ℚ)) ^ 2)).sum)
      / ((xs.length - 1 : ℕ) : ℚ))
  else none

/-- Pandas `min` over the non-NaN values. -/
def minOf (xs : List ℚ) : Option ℚ :=
  match xs with
  | [] => none
  | x :: rest => some (rest.foldl min x)

/-- Pandas `max` over the non-NaN values. -/
def maxOf (xs : List ℚ) : Option ℚ :=
  match xs with
  | [] => none
  | x :: rest => some (rest.foldl max x)

/-- The `price_statistics` dict of `analyze_crypto_data`
(`price_std_dev_sq` stores the square of the source's
`price_std_dev`, see the header comment). -/
structure PriceStats where
  mean_price : Option ℚ
  median_price : Option ℚ
  price_std_dev_sq : Option ℚ
  min_price : Option ℚ
  max_price : Option ℚ
deriving DecidableEq

/-- The `market_cap_insights` dict of `analyze_crypto_data`.  The sum of
an all-NaN or empty column is `0`, never NaN, hence a plain `ℚ`. -/
structure MarketCapInsights where
  total_market_cap : ℚ
  mean_market_cap : Option ℚ
  median_market_cap : Option ℚ
deriving DecidableEq

/-- The price-statistics block of the `try` body: each pandas aggregate
on the `current_price` column raises for the same reason (a string
cell), so the single `cellNums` extraction raises exactly when the
first aggregate of the source would. -/
def priceStatsOf (cells : List Cell) : Except String PriceStats :=
  match cellNums cells with
  | .error e => .error e
  | .ok xs =>
      .ok ⟨meanOf xs, medianOf xs, sampleVarOf xs, minOf xs, maxOf xs⟩

/-- The market-capitalisation block of the `try` body. -/
def marketCapInsightsOf (cells : List Cell) :
    Except String MarketCapInsights :=
  match cellNums cells with
  | .error e => .error e
  | .ok xs => .ok ⟨xs.sum, meanOf xs, medianOf xs⟩

/-- The `try` body of `analyze_crypto_data`: price statistics first,
then market-capitalisation insights; the first raise wins. -/
def computeAnalysis (data : List MarketRecord) :
    Except String (PriceStats × MarketCapInsights) :=
  match priceStatsOf (column .current_price data) with
  | .error e => .error e
  | .ok ps =>
      match marketCapInsightsOf (column .market_cap data) with
      | .error e => .error e
      | .ok mc => .ok (ps, mc)

/-- Result dict of `analyze_crypto_data`:
`noData ts` is `\x7b error: no data available, timestamp \x7d` for the
empty batch; `failed d ts` is `\x7b error: analysis failed, details d,
timestamp \x7d` from the `except` block; `ok ps mc ts` is the analysis
dict.  (`pd.DataFrame` construction from a list of dicts does not fail,
so that `except` block is unreachable and not modelled.) -/
inductive AnalysisResult
  | noData (timestamp : ℕ)
  | failed (details : String) (timestamp : ℕ)
  | ok (price_statistics : PriceStats)
      (market_cap_insights : MarketCapInsights) (timestamp : ℕ)
deriving DecidableEq

/-- `analyze_crypto_data` of `crypto_service.py`; `now` is the clock
reading `pd.Timestamp.now()` observed by the call. -/
def analyze_crypto_data (data : List MarketRecord) (now : ℕ) :
    AnalysisResult :=
  if data.isEmpty then .noData now
  else
    match computeAnalysis data with
    | .ok (ps, mc) => .ok ps mc now
    | .error e => .failed e now

/-- Replace the timestamp of a result (used to compare two calls of
`analyze_crypto_data` modulo their clock readings). -/
def setTimestamp : AnalysisResult → ℕ → AnalysisResult
  | .noData _, t => .noData t
  | .failed d _, t => .failed d t
  | .ok ps mc _, t => .ok ps mc t

/-- Numeric values actually aggregated from the `current_price` column. -/
def validPrices (data : List MarketRecord) : List ℚ :=
  (column .current_price data).filterMap numOf

/-- Environment of one call of `fetch_crypto_data`: the network request
fails, the response status is non-2xx (`raise_for_status` raises), the
body fails to parse (`response.json()` raises), or a payload parses. -/
inductive FetchOutcome
  | networkError
  | non2xx
  | parseError
  | payload (data : List MarketRecord)
deriving DecidableEq

/-- The `try` body of `fetch_crypto_data`: raises on the three failure
outcomes, returns `[]` on an empty payload. -/
def fetchBody : FetchOutcome → Except String (List MarketRecord)
  | .networkError => .error "RequestException"
  | .non2xx => .error "HTTPError"
  | .parseError => .error "JSONDecodeError"
  | .payload d => .ok (if d.isEmpty then [] else d)

/-- `fetch_crypto_data` of `crypto_service.py`: every raise of the body
is caught by the two `except` clauses, which return `[]`. -/
def fetch_crypto_data (o : FetchOutcome) : List MarketRecord :=
  match fetchBody o with
  | .ok d => d
  | .error _ => []

/-- Per-cycle environment of `background_update` in `app.py`:
`fetchData` is what `fetch_crypto_data()` returns this cycle, and
`persistOk` is whether `sheets_service.update_sheet` returns normally
(`false` models the `raise` of its `except` block, e.g. an auth or
transport failure of the Sheets API). -/
structure CycleInput where
  fetchData : List MarketRecord
  persistOk : Bool
deriving DecidableEq

/-- Observable events of one `background_update` iteration: the call of
`fetch_crypto_data`, the `socketio.emit` of the crypto_update payload,
the call of `sheets_service.update_sheet`, `time.sleep` of a given
number of seconds, and the final `logger.critical` line. -/
inductive Event
  | fetchCall
  | emit
  | persistAttempt
  | sleepSec (n : ℕ)
  | criticalLog
deriving DecidableEq

/-- `max_errors` of `background_update`. -/
def max_errors : ℕ := 5

/-- One iteration of the `while` body of `background_update`, given the
current `error_count` and the cycle environment; `sheets` is whether the
module-level `sheets_service` initialised (is not `None`).  Returns the
new `error_count` and the events of the iteration.  The embedded
`analyze_crypto_data` is total, so the `try` block can only raise at
`update_sheet`; `socketio.emit` is modelled as non-raising. -/
def cycleStep (sheets : Bool) (ec : ℕ) (i : CycleInput) :
    ℕ × List Event :=
  if i.fetchData.isEmpty then
    (ec + 1, [.fetchCall, .sleepSec 60])
  else if sheets then
    if i.persistOk then
      (0, [.fetchCall, .emit, .persistAttempt, .sleepSec 300])
    else
      (ec + 1, [.fetchCall, .emit, .persistAttempt, .sleepSec 60])
  else
    (0, [.fetchCall, .emit, .sleepSec 300])

/-- The `while error_count < max_errors` loop of `background_update`,
observed over a finite list of cycle environments: the loop condition is
re-checked before each iteration; when it fails the loop exits and logs
at critical severity.  An exhausted environment list with the loop still
live yields no further events (the real loop would keep cycling). -/
def background_update (sheets : Bool) : ℕ → List CycleInput → List Event
  | ec, [] => if max_errors ≤ ec then [.criticalLog] else []
  | ec, i :: rest =>
      if max_errors ≤ ec then [.criticalLog]
      else
        (cycleStep sheets ec i).2 ++
          background_update sheets (cycleStep sheets ec i).1 rest

/-- A cycle whose fetch comes back empty (a signalled `FetchError`). -/
def failCycle : CycleInput := ⟨[], true⟩

/-- Bitcoin record of the spec's E2E example. -/
def recBTC : MarketRecord :=
  ⟨none, none, some 50000, some 1000000000, none, none⟩

/-- Ethereum record of the spec's E2E example. -/
def recETH : MarketRecord :=
  ⟨none, none, some 2000, some 500000000, none, none⟩

/-- A fully successful cycle: non-empty fetch, sheet write succeeds. -/
def okCycle : CycleInput := ⟨[recBTC, recETH], true⟩

/-! Helper lemmas shared by the claim theorems. -/

lemma cellNums_no_str (cells : List Cell)
    (h : ∀ c ∈ cells, c.isStr = false) :
    cellNums cells = .ok (cells.filterMap numOf) := by
  induction cells with
  | nil => rfl
  | cons c rest ih =>
      have hrest := ih (fun c hc => h c (List.mem_cons_of_mem _ hc))
      cases c with
      | num q =>
          simp [cellNums, hrest, Except.map, List.filterMap_cons, numOf]
      | str s =>
          exact absurd (h _ (List.mem_cons_self _ _)) (by simp [Cell.isStr])
      | nan =>
          simp [cellNums, hrest, List.filterMap_cons, numOf]

lemma price_cell_not_str (r : MarketRecord) :
    ((recCell .current_price r).getD .nan).isStr = false := by
  cases h : r.current_price <;> simp [recCell, h, Cell.isStr]

lemma cap_cell_not_str (r : MarketRecord) :
    ((recCell .market_cap r).getD .nan).isStr = false := by
  cases h : r.market_cap <;> simp [recCell, h, Cell.isStr]

lemma column_cap_no_str (data : List MarketRecord) :
    ∀ c ∈ column .market_cap data, c.isStr = false := by
  intro c hc
  unfold column at hc
  split at hc
  · obtain ⟨r, _, rfl⟩ := List.mem_map.mp hc
    exact cap_cell_not_str r
  · obtain ⟨r, _, rfl⟩ := List.mem_map.mp hc
    rfl

lemma mc_insights_ok (data : List MarketRecord) :
    marketCapInsightsOf (column .market_cap data) =
      .ok ⟨((column .market_cap data).filterMap numOf).sum,
        meanOf ((column .market_cap data).filterMap numOf),
        medianOf ((column .market_cap data).filterMap numOf)⟩ := by
  have h := cellNums_no_str _ (column_cap_no_str data)
  simp [marketCapInsightsOf, h]

lemma price_col_present (data : List MarketRecord)
    (h : data.any (fun r => (recCell .current_price r).isSome) = true) :
    priceStatsOf (column .current_price data) =
      .ok ⟨meanOf (validPrices data), medianOf (validPrices data),
        sampleVarOf (validPrices data), minOf (validPrices data),
        maxOf (validPrices data)⟩ := by
  have hnostr : ∀ c ∈ column .current_price data, c.isStr = false := by
    intro c hc
    unfold column at hc
    rw [if_pos h] at hc
    obtain ⟨r, _, rfl⟩ := List.mem_map.mp hc
    exact price_cell_not_str r
  have hnums := cellNums_no_str _ hnostr
  simp [priceStatsOf, hnums, validPrices]

lemma getD_zeros (xs : List ℚ) (k : ℕ) (h : ∀ x ∈ xs, x = 0) :
    xs.getD k 0 = 0 := by
  induction xs generalizing k with
  | nil => rfl
  | cons x rest ih =>
      cases k with
      | zero => exact h x (List.mem_cons_self _ _)
      | succ k =>
          exact ih k (fun y hy => h y (List.mem_cons_of_mem _ hy))

lemma meanOf_zeros (xs : List ℚ) (hne : xs ≠ [])
    (h : ∀ x ∈ xs, x = 0) : meanOf xs = some 0 := by
  cases xs with
  | nil => exact absurd rfl hne
  | cons x rest =>
      simp only [meanOf]
      rw [List.sum_eq_zero h]
      simp

lemma medianOf_zeros (xs : List ℚ) (hne : xs ≠ [])
    (h : ∀ x ∈ xs, x = 0) : medianOf xs = some 0 := by
  unfold medianOf
  have hmem : ∀ x ∈ List.insertionSort (· ≤ ·) xs, x = 0 := by
    intro x hx
    exact h x ((List.mem_insertionSort _).mp hx)
  have hlen : (List.insertionSort (· ≤ ·) xs).length = xs.length :=
    List.length_insertionSort _ _
  have hlen0 : (List.insertionSort (· ≤ ·) xs).length ≠ 0 := by
    rw [hlen]
    exact fun h0 => hne (List.length_eq_zero.mp h0)
  simp only [if_neg hlen0]
  by_cases hpar : (List.insertionSort (· ≤ ·) xs).length % 2 = 1
  · rw [if_pos hpar, getD_zeros _ _ hmem]
  · rw [if_neg hpar, getD_zeros _ _ hmem, getD_zeros _ _ hmem]
    norm_num

lemma cellNums_zero_col (data : List MarketRecord) :
    cellNums (data.map fun _ => Cell.num 0) =
      .ok (data.map fun _ => (0 : ℚ)) := by
  induction data with
  | nil => rfl
  | cons r rest ih =>
      simp only [List.map_cons, cellNums, ih, Except.map]

lemma column_cap_default (data : List MarketRecord)
    (h : ∀ r ∈ data, r.market_cap = none) :
    column .market_cap data = data.map fun _ => Cell.num 0 := by
  unfold column
  rw [if_neg]
  · rfl
  · simp only [List.any_eq_true, not_exists]
    intro r
    rintro ⟨hr, hsome⟩
    rw [recCell, h r hr] at hsome
    simp at hsome

lemma validPrices_default (data : List MarketRecord)
    (h : data.any (fun r => (recCell .current_price r).isSome) = false) :
    validPrices data = [] := by
  unfold validPrices column
  rw [if_neg (by simp [h])]
  induction data with
  | nil => rfl
  | cons r rest ih => simp [List.filterMap_cons, defaultCell, numOf, ih]

lemma background_update_halted (sheets : Bool) (ec : ℕ)
    (inputs : List CycleInput) (h : max_errors ≤ ec) :
    background_update sheets ec inputs = [.criticalLog] := by
  cases inputs with
  | nil => simp [background_update, if_pos h]
  | cons i rest => simp [background_update, if_pos h]

/-! Claim theorems. -/

/-- Sample records used by counterexamples and witnesses. -/
def recCapAndPrice : MarketRecord := ⟨none, none, some 1, some 100, none, none⟩

/-- A record with a price but no `market_cap` key. -/
def recNoCap : MarketRecord := ⟨none, none, some 2, none, none, none⟩

/-- `recNoCap` with the missing cap substituted by `0`. -/
def recZeroCap : MarketRecord := ⟨none, none, some 2, some 0, none, none⟩

/-- A record carrying no keys at all. -/
def recBare : MarketRecord := ⟨none, none, none, none, none, none⟩

/-- A lone record with price 5 and cap 1. -/
def recSolo : MarketRecord := ⟨none, none, some 5, some 1, none, none⟩

/-- C1 (counterexample): in the cycle at error count 0 whose fetch
succeeds and whose sheet write raises, the live broadcast is emitted,
yet `error_count` becomes 1 — the `raise` of `update_sheet` lands in
the generic `except` of `background_update`, which increments the
counter; this refutes the claimed non-incrementation. -/
theorem c1_counterexample :
    (cycleStep true 0 ⟨[recBTC], false⟩).1 = 1 ∧
    Event.emit ∈ (cycleStep true 0 ⟨[recBTC], false⟩).2 := by
  constructor <;> simp [cycleStep, recBTC]

/-- C1 (amended): with a sheets service present, a cycle whose fetch
succeeds and whose sheet write raises still emits the live broadcast
(the emit precedes the `update_sheet` call in the trace), but the
failure increments the consecutive-failure counter by one and the
scheduler sleeps the 60s error backoff instead of resetting the
counter. -/
theorem c1_amended : ∀ (ec : ℕ) (i : CycleInput), i.fetchData ≠ [] →
    i.persistOk = false →
    cycleStep true ec i =
      (ec + 1, [.fetchCall, .emit, .persistAttempt, .sleepSec 60]) := by
  intro ec i hne hp
  have h1 : i.fetchData.isEmpty = false := by
    cases hfd : i.fetchData with
    | nil => exact absurd hfd hne
    | cons a l => rfl
  simp [cycleStep, h1, hp]

/-- C1 (witness): the amended statement at error count 2 with a
one-record fetch and a failing sheet write. -/
theorem c1_witness :
    cycleStep true 2 ⟨[recBTC], false⟩ =
      (3, [.fetchCall, .emit, .persistAttempt, .sleepSec 60]) := by
  simpa using c1_amended 2 ⟨[recBTC], false⟩ (List.cons_ne_nil _ _) rfl

/-- C2: starting from error count 0, five consecutive empty fetches
drive `background_update` through exactly five fetch/backoff iterations
and then out of the `while` loop into the critical log, whatever
further cycles the environment would offer; and once the counter has
reached `max_errors` the loop body never runs again — the trace is the
lone critical log and contains no fetch call. -/
theorem c2_thm :
    (∀ sheets rest, background_update sheets 0
        (List.replicate max_errors failCycle ++ rest) =
      [.fetchCall, .sleepSec 60, .fetchCall, .sleepSec 60,
       .fetchCall, .sleepSec 60, .fetchCall, .sleepSec 60,
       .fetchCall, .sleepSec 60, .criticalLog]) ∧
    (∀ sheets ec inputs, max_errors ≤ ec →
      background_update sheets ec inputs = [.criticalLog] ∧
      Event.fetchCall ∉ background_update sheets ec inputs) := by
  constructor
  · intro sheets rest
    norm_num [max_errors, List.replicate, background_update, cycleStep,
      failCycle, background_update_halted]
  · intro sheets ec inputs h
    refine ⟨background_update_halted sheets ec inputs h, ?_⟩
    rw [background_update_halted sheets ec inputs h]
    simp

/-- C2 (witness): the halted clause at error count `max_errors`. -/
theorem c2_witness :
    background_update true max_errors [] = [Event.criticalLog] ∧
    Event.fetchCall ∉ background_update true max_errors [] :=
  c2_thm.2 true max_errors [] (le_refl _)

/-- C3 (counterexample): two calls of `analyze_crypto_data` on the same
(empty) batch observe different clock readings and return results that
differ in the timestamp field, refuting identity in every field. -/
theorem c3_counterexample :
    analyze_crypto_data [] 0 ≠ analyze_crypto_data [] 1 := by
  simp [analyze_crypto_data]

/-- C3 (amended): `analyze_crypto_data` is deterministic in everything
except the embedded clock reading — the results of two calls on the
same batch agree once the timestamp of one is replaced by the
timestamp of the other. -/
theorem c3_amended : ∀ data t t',
    setTimestamp (analyze_crypto_data data t') t =
      analyze_crypto_data data t := by
  intro data t t'
  unfold analyze_crypto_data
  cases h : data.isEmpty with
  | true => simp [setTimestamp]
  | false =>
      simp only [Bool.false_eq_true, if_false]
      cases hc : computeAnalysis data with
      | ok p =>
          obtain ⟨ps, mc⟩ := p
          simp [setTimestamp]
      | error e => simp [setTimestamp]

/-- C5: on the three failure outcomes (network failure, non-2xx
response via `raise_for_status`, malformed payload in `response.json`)
the `try` body of `fetch_crypto_data` raises, the `except` clauses
catch it, and the call returns the empty batch; being a total function
of its outcome, it propagates nothing past its boundary. -/
theorem c5_thm : ∀ o : FetchOutcome,
    o = .networkError ∨ o = .non2xx ∨ o = .parseError →
    (∃ e, fetchBody o = .error e) ∧ fetch_crypto_data o = [] := by
  intro o h
  rcases h with rfl | rfl | rfl <;> exact ⟨⟨_, rfl⟩, rfl⟩

/-- C5 (witness): the network-failure outcome. -/
theorem c5_witness :
    (∃ e, fetchBody .networkError = .error e) ∧
    fetch_crypto_data .networkError = [] :=
  c5_thm .networkError (Or.inl rfl)

/-- C7: the empty batch yields the no-data result carrying only the
timestamp (numeric fields exist in no other constructor field), and
`analyze_crypto_data`, a total function, raises nothing. -/
theorem c7_thm : ∀ t, analyze_crypto_data [] t = .noData t :=
  fun _ => rfl

/-- C9: the E2E example — prices 50000 and 2000 with caps 1e9 and 5e8
give mean 26000, median 26000, min 2000, max 50000, total cap 1.5e9
(and mean/median cap 7.5e8, squared sample deviation 1.152e9). -/
theorem c9_thm :
    analyze_crypto_data [recBTC, recETH] 0 =
      .ok ⟨some 26000, some 26000, some 1152000000, some 2000, some 50000⟩
        ⟨1500000000, some 750000000, some 750000000⟩ 0 := by
  norm_num [analyze_crypto_data, computeAnalysis, priceStatsOf,
    marketCapInsightsOf, column, recCell, recBTC, recETH, cellNums, numOf,
    meanOf, medianOf, sampleVarOf, minOf, maxOf, Except.map,
    List.insertionSort, List.orderedInsert]

/-- C4 (counterexample): with two records of which only the second
lacks `market_cap`, pandas keeps the column (the first record carries
the key) and puts NaN for the second; mean and median then skip the
NaN instead of treating it as 0 — the analysis differs from the one on
the batch with the cap substituted by 0 per-record (mean cap 100
versus 50). -/
theorem c4_counterexample :
    analyze_crypto_data [recCapAndPrice, recNoCap] 0 =
      .ok ⟨some (3/2), some (3/2), some (1/2), some 1, some 2⟩
        ⟨100, some 100, some 100⟩ 0 ∧
    analyze_crypto_data [recCapAndPrice, recZeroCap] 0 =
      .ok ⟨some (3/2), some (3/2), some (1/2), some 1, some 2⟩
        ⟨100, some 50, some 50⟩ 0 := by
  constructor <;>
    norm_num [analyze_crypto_data, computeAnalysis, priceStatsOf,
      marketCapInsightsOf, column, recCell, cellNums, numOf, meanOf,
      medianOf, sampleVarOf, minOf, maxOf, recCapAndPrice, recNoCap,
      recZeroCap, Except.map, List.insertionSort, List.orderedInsert]

/-- C4 (amended): the default substitution is per-column, not
per-record — when `market_cap` is carried by no record of a non-empty
batch the whole column is filled with 0 before aggregation, and the
market-cap aggregates then compute as zeros (provided some record
carries a price, so the price column is numeric); a field absent only
from some records becomes NaN there, which sums treat as 0 but means
and medians skip. -/
theorem c4_amended : ∀ data t, data ≠ [] →
    (∀ r ∈ data, r.market_cap = none) →
    (∃ r ∈ data, r.current_price ≠ none) →
    column .market_cap data = (data.map fun _ => Cell.num 0) ∧
    ∃ ps, analyze_crypto_data data t = .ok ps ⟨0, some 0, some 0⟩ t := by
  intro data t hne hcap hprice
  have hcol := column_cap_default data hcap
  refine ⟨hcol, ?_⟩
  have hany : data.any (fun r => (recCell .current_price r).isSome) = true := by
    obtain ⟨r, hr, hp⟩ := hprice
    refine List.any_eq_true.mpr ⟨r, hr, ?_⟩
    cases hcp : r.current_price with
    | none => exact absurd hcp hp
    | some q => simp [recCell, hcp]
  have hps := price_col_present data hany
  have hmcnums : cellNums (column .market_cap data) =
      .ok (data.map fun _ => (0 : ℚ)) := by
    rw [hcol]
    exact cellNums_zero_col data
  have hzs : ∀ x ∈ (data.map fun _ => (0 : ℚ)), x = 0 := by simp
  have hmapne : (data.map fun _ => (0 : ℚ)) ≠ [] := by
    cases data with
    | nil => exact absurd rfl hne
    | cons a l => simp
  have hmc : marketCapInsightsOf (column .market_cap data) =
      .ok ⟨0, some 0, some 0⟩ := by
    simp only [marketCapInsightsOf, hmcnums]
    rw [List.sum_eq_zero hzs, meanOf_zeros _ hmapne hzs,
      medianOf_zeros _ hmapne hzs]
  have hdne : data.isEmpty = false := by
    cases data with
    | nil => exact absurd rfl hne
    | cons a l => rfl
  exact ⟨⟨meanOf (validPrices data), medianOf (validPrices data),
      sampleVarOf (validPrices data), minOf (validPrices data),
      maxOf (validPrices data)⟩,
    by simp [analyze_crypto_data, hdne, computeAnalysis, hps, hmc]⟩

/-- C4 (witness): the amended statement on the one-record batch whose
record lacks `market_cap` — there no record carries the key, the
column is default-filled, and every market-cap aggregate is 0. -/
theorem c4_witness :
    column .market_cap [recNoCap] = ([recNoCap].map fun _ => Cell.num 0) ∧
    ∃ ps, analyze_crypto_data [recNoCap] 0 = .ok ps ⟨0, some 0, some 0⟩ 0 :=
  c4_amended [recNoCap] 0 (List.cons_ne_nil _ _)
    (by
      intro r hr
      rw [List.mem_singleton] at hr
      subst hr
      rfl)
    ⟨recNoCap, List.mem_singleton.mpr rfl, by simp [recNoCap]⟩

/-- C6 (counterexample): at error count 3, a cycle whose fetch and
analysis fully succeed but whose sheet write raises does not reset the
counter to 0 — the generic `except` pushes it to 4 and sleeps the 60s
backoff, not the 300s normal interval. -/
theorem c6_counterexample :
    background_update true 3 [⟨[recBTC], false⟩] =
      [.fetchCall, .emit, .persistAttempt, .sleepSec 60] ∧
    (cycleStep true 3 ⟨[recBTC], false⟩).1 = 4 := by
  constructor <;>
    norm_num [background_update, cycleStep, max_errors, recBTC]

/-- C6 (amended): the counter resets to 0 and the scheduler sleeps the
300s normal interval exactly when fetch, analysis and the sheet write
(when a sheets service exists) all succeed; under that reading the P5
trace holds — three failures, one fully successful cycle, then four
further failures leave the counter below 5, the loop alive (no
critical log) and a fetch call in every one of the eight cycles. -/
theorem c6_amended :
    (∀ sheets ec (i : CycleInput), i.fetchData ≠ [] →
      (sheets = true → i.persistOk = true) →
      (cycleStep sheets ec i).1 = 0 ∧
      Event.sleepSec 300 ∈ (cycleStep sheets ec i).2) ∧
    (background_update true 0
        [failCycle, failCycle, failCycle, okCycle,
         failCycle, failCycle, failCycle, failCycle] =
      [.fetchCall, .sleepSec 60, .fetchCall, .sleepSec 60,
       .fetchCall, .sleepSec 60,
       .fetchCall, .emit, .persistAttempt, .sleepSec 300,
       .fetchCall, .sleepSec 60, .fetchCall, .sleepSec 60,
       .fetchCall, .sleepSec 60, .fetchCall, .sleepSec 60]) := by
  constructor
  · intro sheets ec i hne hp
    have h1 : i.fetchData.isEmpty = false := by
      cases hfd : i.fetchData with
      | nil => exact absurd hfd hne
      | cons a l => rfl
    cases sheets with
    | false => simp [cycleStep, h1]
    | true => simp [cycleStep, h1, hp rfl]
  · norm_num [background_update, cycleStep, max_errors, failCycle,
      okCycle, recBTC, recETH]

/-- C6 (witness): the amended reset clause at error count 1 on a fully
successful cycle. -/
theorem c6_witness :
    (cycleStep true 1 okCycle).1 = 0 ∧
    Event.sleepSec 300 ∈ (cycleStep true 1 okCycle).2 :=
  c6_amended.1 true 1 okCycle (by simp [okCycle]) (fun _ => rfl)

/-- C8 (counterexample): on a batch of size 1 the price standard
deviation is pandas NaN (`ddof = 1` leaves a zero divisor), modelled
by `none` — the field is not the explicitly defined 0.0 the claim
requires. -/
theorem c8_counterexample :
    analyze_crypto_data [recSolo] 0 =
      .ok ⟨some 5, some 5, none, some 5, some 5⟩ ⟨1, some 1, some 1⟩ 0 ∧
    analyze_crypto_data [recSolo] 0 ≠
      .ok ⟨some 5, some 5, some 0, some 5, some 5⟩ ⟨1, some 1, some 1⟩ 0 := by
  have h : analyze_crypto_data [recSolo] 0 =
      .ok ⟨some 5, some 5, none, some 5, some 5⟩ ⟨1, some 1, some 1⟩ 0 := by
    norm_num [analyze_crypto_data, computeAnalysis, priceStatsOf,
      marketCapInsightsOf, column, recCell, recSolo, cellNums, numOf,
      meanOf, medianOf, sampleVarOf, minOf, maxOf, Except.map,
      List.insertionSort, List.orderedInsert]
  refine ⟨h, ?_⟩
  rw [h]
  simp

/-- C8 (amended): whenever the batch carries at least one numeric
price, the analysis succeeds and the squared price standard deviation
is the sample variance with divisor N−1 over the numeric prices when
there are at least two of them, and NaN (`none`) — not 0.0 — when
there is exactly one. -/
theorem c8_amended : ∀ data t, 1 ≤ (validPrices data).length →
    ∃ ps mc, analyze_crypto_data data t = .ok ps mc t ∧
      (2 ≤ (validPrices data).length →
        ps.price_std_dev_sq =
          some ((((validPrices data).map (fun x =>
              (x - (validPrices data).sum /
                ((validPrices data).length : ℚ)) ^ 2)).sum)
            / (((validPrices data).length - 1 : ℕ) : ℚ))) ∧
      ((validPrices data).length = 1 → ps.price_std_dev_sq = none) := by
  intro data t h1
  have hany : data.any (fun r => (recCell .current_price r).isSome) = true := by
    cases hh : data.any (fun r => (recCell .current_price r).isSome) with
    | true => rfl
    | false =>
        rw [validPrices_default data hh] at h1
        simp at h1
  have hps := price_col_present data hany
  have hdne : data.isEmpty = false := by
    cases data with
    | nil => simp [validPrices, column] at h1
    | cons a l => rfl
  refine ⟨⟨meanOf (validPrices data), medianOf (validPrices data),
      sampleVarOf (validPrices data), minOf (validPrices data),
      maxOf (validPrices data)⟩,
    ⟨((column .market_cap data).filterMap numOf).sum,
      meanOf ((column .market_cap data).filterMap numOf),
      medianOf ((column .market_cap data).filterMap numOf)⟩,
    ?_, ?_, ?_⟩
  · simp [analyze_crypto_data, hdne, computeAnalysis, hps,
      mc_insights_ok data]
  · intro h2
    simp only [sampleVarOf, if_pos h2]
  · intro heq
    simp only [sampleVarOf, heq]
    norm_num

/-- C8 (witness): the amended statement on the two-record E2E batch. -/
theorem c8_witness :
    ∃ ps mc, analyze_crypto_data [recBTC, recETH] 0 = .ok ps mc 0 ∧
      (2 ≤ (validPrices [recBTC, recETH]).length →
        ps.price_std_dev_sq =
          some ((((validPrices [recBTC, recETH]).map (fun x =>
              (x - (validPrices [recBTC, recETH]).sum /
                ((validPrices [recBTC, recETH]).length : ℚ)) ^ 2)).sum)
            / (((validPrices [recBTC, recETH]).length - 1 : ℕ) : ℚ))) ∧
      ((validPrices [recBTC, recETH]).length = 1 →
        ps.price_std_dev_sq = none) :=
  c8_amended [recBTC, recETH] 0
    (by norm_num [validPrices, column, recCell, recBTC, recETH, numOf,
      List.filterMap_cons])

/-- C10: when a non-empty batch carries no `current_price` key at all,
the column is created filled with the string sentinel, the first
pandas aggregate raises a `TypeError` internally, and the call returns
the analysis-failed result with a timestamp instead of statistics —
and, being total, raises nothing to its caller. -/
theorem c10_thm : ∀ data t, data ≠ [] →
    (∀ r ∈ data, r.current_price = none) →
    column .current_price data = (data.map fun _ => Cell.str "N/A") ∧
    analyze_crypto_data data t = .failed "TypeError" t := by
  intro data t hne h
  have hany : data.any (fun r => (recCell .current_price r).isSome) = false := by
    rw [List.any_eq_false]
    intro r hr
    simp [recCell, h r hr]
  have hcol : column .current_price data =
      (data.map fun _ => Cell.str "N/A") := by
    unfold column
    rw [if_neg (by simp [hany])]
    rfl
  refine ⟨hcol, ?_⟩
  obtain ⟨r, rest, rfl⟩ : ∃ r rest, data = r :: rest := by
    cases data with
    | nil => exact absurd rfl hne
    | cons a l => exact ⟨a, l, rfl⟩
  have herr : priceStatsOf (column .current_price (r :: rest)) =
      .error "TypeError" := by
    rw [hcol]
    simp [priceStatsOf, cellNums]
  simp [analyze_crypto_data, computeAnalysis, herr]

/-- C10 (witness): the one-record batch with no keys at all. -/
theorem c10_witness :
    column .current_price [recBare] = ([recBare].map fun _ => Cell.str "N/A") ∧
    analyze_crypto_data [recBare] 7 = .failed "TypeError" 7 :=
  c10_thm [recBare] 7 (List.cons_ne_nil _ _)
    (by
      intro r hr
      rw [List.mem_singleton] at hr
      subst hr
      rfl)

end Crypto
